import Mathlib

/-!
Verification of the preflight.sh launch-readiness scanner core:
the endpoint probe (`isLocalURL`, `tryURL` from internal/checks/checks.go),
the comment stripper (`stripComments` from internal/checks/checks.go),
the balanced-brace extraction helpers (`extractBraceBlockSEO`,
`extractNestedBlockSEO` from internal/checks/seo.go and `extractBraceBlock`,
`extractNestedBlockOG` from internal/checks/og_twitter.go), and the
summary aggregation (`CalculateSummary` from internal/output/output.go).

Strings are modelled at the character level (the repository only ever feeds
these helpers ASCII-range text, where Go's byte indexing and character
indexing coincide).  Network effects are modelled by an oracle client
`HttpClient`: a function from URL to `Except err resp`; `tryURL`
additionally records, in order, the URL of every GET it performs, making
"number of attempts" observable.
-/

namespace Preflight

/-- Literal left-brace character. -/
def braceL : Char := Char.ofNat 123

/-- Literal right-brace character. -/
def braceR : Char := Char.ofNat 125

/-- Literal backtick character. -/
def backtickC : Char := Char.ofNat 96

/-! ## String helpers mirroring Go's `strings` package (ASCII-level) -/

/-- Go `strings.HasPrefix`. -/
def goHasPref (s pre : String) : Bool := pre.toList.isPrefixOf s.toList

/-- Go `strings.HasSuffix`. -/
def goHasSuf (s suf : String) : Bool := suf.toList.isSuffixOf s.toList

/-- Go `strings.Contains`: `sub` occurs contiguously inside `s`. -/
def goContains (s sub : String) : Bool :=
  s.toList.tails.any (fun t => sub.toList.isPrefixOf t)

/-- Go `strings.ToLower` (ASCII). -/
def goToLower (s : String) : String := String.mk (s.toList.map Char.toLower)

/-- Go `strings.TrimPrefix`: drops `pre` when it is a prefix, else identity. -/
def goTrimPref (s pre : String) : String :=
  if goHasPref s pre then String.mk (s.toList.drop pre.toList.length) else s

/-! ## Data model (internal/checks/checks.go, internal/output/output.go) -/

/-- `CheckResult` from internal/checks/checks.go.  `Severity` is a Go string
type with constants "info", "warn", "error"; it is modelled as `String`
because `CalculateSummary` must also handle unrecognized severity values. -/
structure CheckResult where
  id : String
  title : String
  severity : String
  passed : Bool
  message : String
  suggestions : List String
  details : List String
  deriving DecidableEq, Repr

/-- `Summary` from internal/output/output.go. -/
structure Summary where
  ok : Nat
  warn : Nat
  fail : Nat
  deriving DecidableEq, Repr

/-- One iteration of the loop body of `CalculateSummary`
(internal/output/output.go): `passed` is checked first; otherwise the
severity switch tests "error", then "warn", and everything else falls to
the default branch which increments `ok`. -/
def sumStep (s : Summary) (r : CheckResult) : Summary :=
  if r.passed then { s with ok := s.ok + 1 }
  else if r.severity = "error" then { s with fail := s.fail + 1 }
  else if r.severity = "warn" then { s with warn := s.warn + 1 }
  else { s with ok := s.ok + 1 }

/-- `CalculateSummary` from internal/output/output.go: fold the loop body
over the result list starting from the zero summary. -/
def CalculateSummary (results : List CheckResult) : Summary :=
  results.foldl sumStep ⟨0, 0, 0⟩

/-! ## Endpoint probe (internal/checks/checks.go) -/

/-- The HTTP transport, as an oracle from URL to response-or-error.
`doGet` in the Go source builds a GET request with a fixed User-Agent and
hands it to the client; here the whole round trip is the oracle call. -/
structure HttpClient (ρ ε : Type) where
  get : String → Except ε ρ

/-- `isLocalURL` from internal/checks/checks.go: lowercase the URL, then
test for "localhost", loopback/catch-all IPv4 literals, or the local
development suffixes ".local", ".test", ".ddev.site". -/
def isLocalURL (url : String) : Bool :=
  let url := goToLower url
  goContains url "localhost" ||
  goContains url "127.0.0.1" ||
  goContains url "0.0.0.0" ||
  goHasSuf url ".local" ||
  goHasSuf url ".test" ||
  goHasSuf url ".ddev.site"

/-- Result of `tryURL`: the Go function returns
`(*http.Response, string, error)`; `result` packages the response/error
pair, `used` is the returned URL string, and `attempts` records the URL of
every `doGet` call in the order performed (observable effect log). -/
structure TryOut (ρ ε : Type) where
  result : Except ε ρ
  used : String
  attempts : List String
  deriving Repr

/-- The alternate-protocol URL computed inside the local-with-protocol
branch of `tryURL` (internal/checks/checks.go): swap `http://` for
`https://` and vice versa via `strings.TrimPrefix`; empty when the URL
carries neither protocol. -/
def altURLOf (url : String) : String :=
  if goHasPref url "http://" then "https://" ++ goTrimPref url "http://"
  else if goHasPref url "https://" then "http://" ++ goTrimPref url "https://"
  else ""

/-- `tryURL` from internal/checks/checks.go, line for line.
Branch 1: local URL without protocol — try `https://`+url, then
`http://`+url; on double failure Go returns `nil, url, err` where `err` is
the second (HTTP) attempt's error and the URL is the original input.
Branch 2: any other local URL (hence one carrying a protocol) — try it,
then the alternate-protocol URL computed with `TrimPrefix`; on double
failure return the second attempt's error with the original URL.
Branch 3: non-local — a single GET of the URL exactly as given. -/
def tryURL {ρ ε : Type} (client : HttpClient ρ ε) (url : String) : TryOut ρ ε :=
  if isLocalURL url && !goHasPref url "http://" && !goHasPref url "https://" then
    let httpsURL := "https://" ++ url
    match client.get httpsURL with
    | .ok resp => ⟨.ok resp, httpsURL, [httpsURL]⟩
    | .error _ =>
      let httpURL := "http://" ++ url
      match client.get httpURL with
      | .ok resp => ⟨.ok resp, httpURL, [httpsURL, httpURL]⟩
      | .error e => ⟨.error e, url, [httpsURL, httpURL]⟩
  else if isLocalURL url then
    match client.get url with
    | .ok resp => ⟨.ok resp, url, [url]⟩
    | .error e =>
      let altURL := altURLOf url
      if altURL ≠ "" then
        match client.get altURL with
        | .ok resp => ⟨.ok resp, altURL, [url, altURL]⟩
        | .error e2 => ⟨.error e2, url, [url, altURL]⟩
      else ⟨.error e, url, [url]⟩
  else
    match client.get url with
    | .ok resp => ⟨.ok resp, url, [url]⟩
    | .error e => ⟨.error e, url, [url]⟩

/-! ## Comment stripping (internal/checks/checks.go, `stripComments`)

The Go function applies six `regexp.ReplaceAllString(content, "")` passes
in a fixed order.  Each pass is embedded as a left-to-right scanner that
deletes the same leftmost, non-overlapping matches the RE2 regular
expression finds; replaced regions are never rescanned, matching
`ReplaceAllString`, which locates all matches in its input before
replacing. -/

/-- Pass 1: single-line comments, regex `//[^\n]*`.  The `Bool` is a
"currently deleting" mode: once inside a match, characters are dropped up
to (not including) the next newline. -/
def stripLineGo : Bool → List Char → List Char
  | _, [] => []
  | true, c :: rest =>
    if c = '\n' then c :: stripLineGo false rest else stripLineGo true rest
  | false, '/' :: '/' :: rest => stripLineGo true rest
  | false, c :: rest => c :: stripLineGo false rest

/-- Pass 1 entry point. -/
def stripLineC (cs : List Char) : List Char := stripLineGo false cs

/-- Find the earliest `*/` and return the suffix after it (the lazy
`.*?\*/` part of regex `(?s)/\*.*?\*/`). -/
def findBlockClose : List Char → Option (List Char)
  | '*' :: '/' :: rest => some rest
  | _ :: rest => findBlockClose rest
  | [] => none

/-- Pass 2 worker: block comments, regex `(?s)/\*.*?\*/`, fuelled so that
the definition unfolds by evaluation.  When a `/*` has no closing `*/`
anywhere ahead, no occurrence of `/*` further right can have one either,
so the regex has no further match and the rest is kept verbatim. -/
def stripBlockGo : Nat → List Char → List Char
  | 0, cs => cs
  | _ + 1, [] => []
  | f + 1, '/' :: '*' :: rest =>
    match findBlockClose rest with
    | some rest' => stripBlockGo f rest'
    | none => '/' :: '*' :: rest
  | f + 1, c :: rest => c :: stripBlockGo f rest

/-- Pass 2 entry point (fuel = length suffices: every step consumes at
least one character). -/
def stripBlockC (cs : List Char) : List Char := stripBlockGo cs.length cs

/-- Find the earliest `-->` and return the suffix after it. -/
def findHtmlClose : List Char → Option (List Char)
  | '-' :: '-' :: '>' :: rest => some rest
  | _ :: rest => findHtmlClose rest
  | [] => none

/-- Pass 3 worker: markup comments, regex `(?s)<!--.*?-->`. -/
def stripHtmlGo : Nat → List Char → List Char
  | 0, cs => cs
  | _ + 1, [] => []
  | f + 1, '<' :: '!' :: '-' :: '-' :: rest =>
    match findHtmlClose rest with
    | some rest' => stripHtmlGo f rest'
    | none => '<' :: '!' :: '-' :: '-' :: rest
  | f + 1, c :: rest => c :: stripHtmlGo f rest

/-- Pass 3 entry point. -/
def stripHtmlC (cs : List Char) : List Char := stripHtmlGo cs.length cs

/-- Find the earliest `#`+right-brace and return the suffix after it. -/
def findTwigClose : List Char → Option (List Char)
  | '#' :: c :: rest =>
    if c = braceR then some rest else findTwigClose (c :: rest)
  | _ :: rest => findTwigClose rest
  | [] => none

/-- Pass 4 worker: double-brace-hash comments, regex matching a left brace,
`#`, a lazy body, `#`, and a right brace. -/
def stripTwigGo : Nat → List Char → List Char
  | 0, cs => cs
  | _ + 1, [] => []
  | f + 1, c :: rest =>
    if c = braceL then
      match rest with
      | '#' :: rest2 =>
        match findTwigClose rest2 with
        | some rest' => stripTwigGo f rest'
        | none => c :: '#' :: rest2
      | _ => c :: stripTwigGo f rest
    else c :: stripTwigGo f rest

/-- Pass 4 entry point. -/
def stripTwigC (cs : List Char) : List Char := stripTwigGo cs.length cs

/-- Find the earliest `%>` and return the suffix after it. -/
def findErbClose : List Char → Option (List Char)
  | '%' :: '>' :: rest => some rest
  | _ :: rest => findErbClose rest
  | [] => none

/-- Pass 5 worker: percent-hash comments, regex `(?s)<%#.*?%>`. -/
def stripErbGo : Nat → List Char → List Char
  | 0, cs => cs
  | _ + 1, [] => []
  | f + 1, '<' :: '%' :: '#' :: rest =>
    match findErbClose rest with
    | some rest' => stripErbGo f rest'
    | none => '<' :: '%' :: '#' :: rest
  | f + 1, c :: rest => c :: stripErbGo f rest

/-- Pass 5 entry point. -/
def stripErbC (cs : List Char) : List Char := stripErbGo cs.length cs

/-- Go's regexp character class `\s`: space, tab, newline, form feed,
carriage return. -/
def goWs (c : Char) : Bool :=
  c = ' ' || c = '\t' || c = '\n' || c = Char.ofNat 12 || c = '\r'

/-- One anchored match attempt for pass 6, regex
`(?m)^\s*#[^{].*$`, at a line-start position: greedily skip whitespace
(which, `\s` matching `\n`, may cross line boundaries), require `#`, then
one character that is not a left brace (`[^{]` also matches `\n`), then
drop greedily up to the end of the current line.  Returns the remainder
after the deleted match, or `none` if the attempt fails here. -/
def hashMatch (cs : List Char) : Option (List Char) :=
  match cs.dropWhile goWs with
  | '#' :: c :: rest2 =>
    if c = braceL then none
    else some (rest2.dropWhile (fun d => !(d = '\n')))
  | _ => none

/-- Pass 6 worker: leading-hash line comments.  The `Bool` tracks whether
the scanner stands at a `^` position (start of text or just after a
newline); the regex is anchored, so matches are attempted only there. -/
def stripHashGo : Nat → Bool → List Char → List Char
  | 0, _, cs => cs
  | _ + 1, _, [] => []
  | f + 1, atStart, c :: rest =>
    if atStart then
      match hashMatch (c :: rest) with
      | some rest' => stripHashGo f false rest'
      | none => c :: stripHashGo f (c = '\n') rest
    else c :: stripHashGo f (c = '\n') rest

/-- Pass 6 entry point. -/
def stripHashC (cs : List Char) : List Char := stripHashGo (cs.length + 1) true cs

/-- `stripComments` from internal/checks/checks.go: the six regex passes in
the source's order — line comments, block comments, markup comments,
double-brace-hash comments, percent-hash comments, leading-hash comments. -/
def stripComments (content : String) : String :=
  String.mk (stripHashC (stripErbC (stripTwigC (stripHtmlC (stripBlockC (stripLineC content.toList))))))

/-! ## Balanced-brace extraction

Two variants exist in the repository:
`extractBraceBlockSEO` (internal/checks/seo.go) tracks single-, double-,
and backtick-quoted string literals with a backslash-escape check, while
`extractBraceBlock` (internal/checks/og_twitter.go) counts every brace.
Each is paired with a nested-key lookup composing a regex
`key\s*:\s*` + left brace with the extractor. -/

/-- Loop of `extractBraceBlockSEO` (internal/checks/seo.go): walk the
suffix of the content starting at the opening position, carrying the Go
loop state — previous character (for the `content[i-1] != '\\'` escape
check; `none` plays the role of `i == 0`), `inString`, `stringChar`, the
signed depth, and the characters consumed so far (reversed).  Returns the
consumed block once depth returns to zero, `none` if the input ends
first. -/
def seoLoop : List Char → Option Char → Bool → Char → Int → List Char → Option (List Char)
  | [], _, _, _, _, _ => none
  | c :: rest, prev, inString, stringChar, depth, acc =>
    if !inString && (c = '"' || c = '\'' || c = backtickC) then
      seoLoop rest (some c) true c depth (c :: acc)
    else if inString && c = stringChar && (prev.map (fun p => !(p = '\\'))).getD true then
      seoLoop rest (some c) false stringChar depth (c :: acc)
    else if !inString then
      if c = braceL then seoLoop rest (some c) inString stringChar (depth + 1) (c :: acc)
      else if c = braceR then
        if depth - 1 = 0 then some (c :: acc).reverse
        else seoLoop rest (some c) inString stringChar (depth - 1) (c :: acc)
      else seoLoop rest (some c) inString stringChar depth (c :: acc)
    else seoLoop rest (some c) inString stringChar depth (c :: acc)

/-- `extractBraceBlockSEO` from internal/checks/seo.go: returns the
substring from `pos` through the matching close brace, skipping braces
inside quoted string literals; empty string when `pos` is out of range,
does not point at an opening brace, or the depth never returns to zero. -/
def extractBraceBlockSEO (content : String) (pos : Nat) : String :=
  let cs := content.toList
  if pos < cs.length ∧ cs.getD pos (Char.ofNat 0) = braceL then
    let prev := if pos = 0 then none else some (cs.getD (pos - 1) (Char.ofNat 0))
    match seoLoop (cs.drop pos) prev false (Char.ofNat 0) 0 [] with
    | some block => String.mk block
    | none => ""
  else ""

/-- Loop of `extractBraceBlock` (internal/checks/og_twitter.go): plain
depth counting over every brace character, with no string-literal
tracking. -/
def ogLoop : List Char → Int → List Char → Option (List Char)
  | [], _, _ => none
  | c :: rest, depth, acc =>
    if c = braceL then ogLoop rest (depth + 1) (c :: acc)
    else if c = braceR then
      if depth - 1 = 0 then some (c :: acc).reverse
      else ogLoop rest (depth - 1) (c :: acc)
    else ogLoop rest depth (c :: acc)

/-- `extractBraceBlock` from internal/checks/og_twitter.go. -/
def extractBraceBlock (content : String) (pos : Nat) : String :=
  let cs := content.toList
  if pos < cs.length ∧ cs.getD pos (Char.ofNat 0) = braceL then
    match ogLoop (cs.drop pos) 0 [] with
    | some block => String.mk block
    | none => ""
  else ""

/-- Anchored attempt of the regex `key` + `\s*:\s*` + left brace at the
head of `cs`: match the key literally, greedily skip `\s`, require `:`,
greedily skip `\s`, require a left brace.  Returns the offset of that
brace from the start of `cs`. -/
def keyBraceAt (key cs : List Char) : Option Nat :=
  if key.isPrefixOf cs then
    let r1 := cs.drop key.length
    let w1 := r1.takeWhile goWs
    match r1.drop w1.length with
    | ':' :: r2 =>
      let w2 := r2.takeWhile goWs
      match r2.drop w2.length with
      | c :: _ =>
        if c = braceL then some (key.length + w1.length + 1 + w2.length)
        else none
      | [] => none
    | _ => none
  else none

/-- Leftmost match of the key-colon-brace pattern (Go
`FindStringIndex` on pattern `(?s)key\s*:\s*` + left brace, for the
non-empty literal keys the repository uses): the index, in the whole
content, of the opening brace — which is `loc[1] - 1` in the Go source. -/
def findKeyBrace (key : List Char) : List Char → Nat → Option Nat
  | [], _ => none
  | c :: rest, idx =>
    match keyBraceAt key (c :: rest) with
    | some off => some (idx + off)
    | none => findKeyBrace key rest (idx + 1)

/-- `extractNestedBlockSEO` from internal/checks/seo.go: locate
`key\s*:\s*` + left brace, then extract the brace block (string-aware) at
the brace. -/
def extractNestedBlockSEO (content key : String) : String :=
  match findKeyBrace key.toList content.toList 0 with
  | none => ""
  | some bracePos => extractBraceBlockSEO content bracePos

/-- `extractNestedBlockOG` from internal/checks/og_twitter.go: same
lookup, but through the non-string-aware extractor. -/
def extractNestedBlockOG (content key : String) : String :=
  match findKeyBrace key.toList content.toList 0 with
  | none => ""
  | some bracePos => extractBraceBlock content bracePos

/-! ## Spec-side auxiliary definitions and concrete test fixtures -/

/-- The spec's alternative ordering of the comment passes: identical to
`stripComments` except that the block-comment pass runs before the
line-comment pass.  Stated from the spec's words ("block forms must be
removed before line forms"); compared against the source's order. -/
def stripCommentsBlockFirst (content : String) : String :=
  String.mk (stripHashC (stripErbC (stripTwigC (stripHtmlC (stripLineC (stripBlockC content.toList))))))

/-- Split a character list into its newline-separated lines (the claim's
notion of "line"; each returned line is newline-free). -/
def goLines : List Char → List (List Char)
  | [] => [[]]
  | c :: rest =>
    if c = '\n' then [] :: goLines rest
    else match goLines rest with
      | l :: ls => (c :: l) :: ls
      | [] => [[c]]

/-- Whether the first non-whitespace character of a single line is `#`. -/
def leadHash (l : List Char) : Bool :=
  match l.dropWhile goWs with
  | '#' :: _ => true
  | _ => false

/-- Whether some line has `#` as its first non-whitespace character. -/
def hashLeadList (cs : List Char) : Bool := (goLines cs).any leadHash

/-- Whether some line of `s` has `#` as its first non-whitespace
character — the notion the leading-hash-comment claim quantifies over. -/
def lineStartsWithHash (s : String) : Bool := hashLeadList s.toList

/-- Bucket predicate mirrored from the `CalculateSummary` loop: a result
lands in `ok` iff it passed, or failed with a severity that is neither
"error" nor "warn". -/
def isOkR (r : CheckResult) : Bool :=
  r.passed || (!(r.severity = "error") && !(r.severity = "warn"))

/-- Bucket predicate: failed with severity "warn". -/
def isWarnR (r : CheckResult) : Bool := !r.passed && r.severity = "warn"

/-- Bucket predicate: failed with severity "error". -/
def isFailR (r : CheckResult) : Bool := !r.passed && r.severity = "error"

/-- Transport fixture: only plain-HTTP localhost answers. -/
def cliHttpOnly : HttpClient Nat String :=
  ⟨fun u => if u = "http://localhost:3000" then .ok 200 else .error "refused"⟩

/-- Transport fixture: only HTTPS localhost answers. -/
def cliHttpsOnly : HttpClient Nat String :=
  ⟨fun u => if u = "https://localhost:3000" then .ok 200 else .error "refused"⟩

/-- Transport fixture: only the bare, scheme-less address answers. -/
def cliBare : HttpClient Nat String :=
  ⟨fun u => if u = "example.com" then .ok 200 else .error "no scheme"⟩

/-- Transport fixture: every request fails. -/
def cliDown : HttpClient Nat String := ⟨fun _ => .error "down"⟩

/-- The spec's balanced-block example text
`openGraph: \x7b a: \x7b b: 1 \x7d, c: "\x7d" \x7d`; its outer opening
brace sits at offset 11. -/
def ogText : String := "openGraph: \x7b a: \x7b b: 1 \x7d, c: \"\x7d\" \x7d"

/-! ## Helper lemmas -/

/-- A URL bearing the `https://` protocol does not also bear `http://`
(the two literals diverge at their fifth character). -/
theorem https_not_http (url : String) (h : goHasPref url "https://" = true) :
    goHasPref url "http://" = false := by
  unfold goHasPref at h ⊢
  obtain ⟨t, ht⟩ := List.isPrefixOf_iff_prefix.mp h
  rw [show url.toList = "https://".toList ++ t from ht.symm]
  rfl

/-- Appending to a non-empty string yields a non-empty string. -/
theorem str_append_ne_empty (s t : String) (hs : s.data ≠ []) : s ++ t ≠ "" := by
  intro hc
  exact hs (List.append_eq_nil.mp (congrArg String.data hc)).1

/-- For a non-local URL, `tryURL` performs a single GET of the URL exactly
as given and returns its outcome with that URL. -/
theorem tryURL_nonlocal {ρ ε : Type} (client : HttpClient ρ ε) (url : String)
    (h : isLocalURL url = false) :
    tryURL client url = ⟨client.get url, url, [url]⟩ := by
  unfold tryURL
  simp only [h, Bool.false_and, Bool.and_false]
  cases hg : client.get url <;> simp

/-- Unfolding `CalculateSummary`'s fold: each bucket counts its
predicate. -/
theorem calcSummary_foldl (l : List CheckResult) : ∀ s : Summary,
    l.foldl sumStep s =
      ⟨s.ok + l.countP isOkR, s.warn + l.countP isWarnR, s.fail + l.countP isFailR⟩ := by
  induction l with
  | nil => intro s; simp
  | cons r t ih =>
    intro s
    rw [List.foldl_cons, ih]
    simp only [List.countP_cons, sumStep, isOkR, isWarnR, isFailR]
    by_cases hp : r.passed
    · simp [hp]; omega
    · by_cases he : r.severity = "error"
      · simp [hp, he]; omega
      · by_cases hw : r.severity = "warn" <;> simp [hp, he, hw] <;> omega

/-- The three bucket predicates partition any result list. -/
theorem countP_buckets (l : List CheckResult) :
    l.countP isOkR + l.countP isWarnR + l.countP isFailR = l.length := by
  induction l with
  | nil => simp
  | cons r t ih =>
    simp only [List.countP_cons, List.length_cons, isOkR, isWarnR, isFailR]
    by_cases hp : r.passed
    · simp [hp]; omega
    · by_cases he : r.severity = "error"
      · simp [hp, he]; omega
      · by_cases hw : r.severity = "warn" <;> simp [hp, he, hw] <;> omega

/-- `goLines` always yields at least one line. -/
theorem goLines_ne_nil (cs : List Char) : goLines cs ≠ [] := by
  cases cs with
  | nil => simp [goLines]
  | cons c rest =>
    by_cases hc : c = '\n'
    · simp [goLines, hc]
    · simp only [goLines, if_neg hc]
      cases goLines rest <;> simp

/-- Splitting distributes over a newline boundary. -/
theorem goLines_append (pre tl : List Char) :
    goLines (pre ++ '\n' :: tl) = goLines pre ++ goLines tl := by
  induction pre with
  | nil => simp [goLines]
  | cons c pre' ih =>
    by_cases hc : c = '\n'
    · simp [goLines, hc, ih]
    · simp only [List.cons_append, goLines, if_neg hc]
      have ih' : goLines (pre'.append ('\n' :: tl)) = goLines pre' ++ goLines tl := ih
      rw [ih']
      rcases hp : goLines pre' with _ | ⟨l, ls⟩
      · exact absurd hp (goLines_ne_nil pre')
      · simp

/-- Prepending whitespace does not change a line's leading-hash status. -/
theorem leadHash_ws_cons {c : Char} (l : List Char) (hws : goWs c = true) :
    leadHash (c :: l) = leadHash l := by
  rw [leadHash, leadHash, List.dropWhile_cons, if_pos hws]

/-- A line starting with `#` has leading-hash status. -/
theorem leadHash_hash_cons (l : List Char) : leadHash ('#' :: l) = true := by
  rw [leadHash, List.dropWhile_cons, if_neg (by decide : ¬goWs '#' = true)]
  rfl

/-- If an anchored hash-comment match succeeds, some line's first
non-whitespace character is `#` (the greedy whitespace skip can only cross
blank prefixes, so the `#` it lands on opens its own line). -/
theorem hashMatch_lead {cs r : List Char} (h : hashMatch cs = some r) :
    hashLeadList cs = true := by
  induction cs with
  | nil => simp [hashMatch] at h
  | cons c rest ih =>
    by_cases hws : goWs c = true
    · have h' : hashMatch rest = some r := by
        rw [hashMatch] at h ⊢
        rwa [List.dropWhile_cons, if_pos hws] at h
      have hl := ih h'
      by_cases hc : c = '\n'
      · simp only [hashLeadList, goLines, if_pos hc, List.any_cons] at hl ⊢
        simp [hl]
      · simp only [hashLeadList, goLines, if_neg hc, List.any_cons] at hl ⊢
        rcases hp : goLines rest with _ | ⟨l, ls⟩
        · exact absurd hp (goLines_ne_nil rest)
        · rw [hp] at hl
          show ((c :: l) :: ls).any leadHash = true
          simp only [List.any_cons] at hl ⊢
          rw [leadHash_ws_cons l hws]
          exact hl
    · have hd : (c :: rest).dropWhile goWs = c :: rest := by
        rw [List.dropWhile_cons, if_neg hws]
      rw [hashMatch, hd] at h
      split at h
      · rename_i c2 rest2 heq
        injection heq with hch hrest
        subst hch
        simp only [hashLeadList, goLines, if_neg (by decide : ¬('#' : Char) = '\n')]
        rcases hp : goLines rest with _ | ⟨l, ls⟩
        · exact absurd hp (goLines_ne_nil rest)
        · show (('#' :: l) :: ls).any leadHash = true
          simp [leadHash_hash_cons]
      · simp at h

/-- The hash-comment pass is the identity on input where no anchored match
succeeds at any line start. -/
theorem stripHashGo_id (f : Nat) : ∀ (cs : List Char) (atStart : Bool),
    (atStart = true → hashMatch cs = none) →
    (∀ pre tl, cs = pre ++ '\n' :: tl → hashMatch tl = none) →
    stripHashGo f atStart cs = cs := by
  induction f with
  | zero => intro cs atStart h1 h2; rfl
  | succ f ih =>
    intro cs atStart h1 h2
    cases cs with
    | nil => rfl
    | cons c rest =>
      have hr1 : decide (c = '\n') = true → hashMatch rest = none := by
        intro hd
        exact h2 [] rest (by rw [of_decide_eq_true hd]; rfl)
      have hr2 : ∀ pre tl, rest = pre ++ '\n' :: tl → hashMatch tl = none := by
        intro pre tl hh
        exact h2 (c :: pre) tl (by rw [hh]; rfl)
      cases atStart with
      | false =>
        simp only [stripHashGo, Bool.false_eq_true, if_false]
        rw [ih rest (decide (c = '\n')) hr1 hr2]
      | true =>
        simp only [stripHashGo, if_true]
        rw [h1 rfl]
        show c :: stripHashGo f (decide (c = '\n')) rest = c :: rest
        rw [ih rest (decide (c = '\n')) hr1 hr2]

/-- When no line of `s` has `#` as its first non-whitespace character, the
hash-comment pass leaves `s` unchanged. -/
theorem stripHash_no_lead_id (s : String) (h : lineStartsWithHash s = false) :
    stripHashC s.toList = s.toList := by
  have hF : hashLeadList s.toList = false := h
  unfold stripHashC
  apply stripHashGo_id
  · intro _
    cases hm : hashMatch s.toList with
    | none => rfl
    | some r =>
      have hT := hashMatch_lead hm
      rw [hF] at hT
      simp at hT
  · intro pre tl hpt
    have htl : hashLeadList tl = false := by
      rw [hpt, hashLeadList, goLines_append, List.any_append] at hF
      simp only [Bool.or_eq_false_iff] at hF
      exact hF.2
    cases hm : hashMatch tl with
    | none => rfl
    | some r =>
      have hT := hashMatch_lead hm
      rw [htl] at hT
      simp at hT

/-! ## Claim theorems -/

/-- C1 (amended): the string-aware extractor `extractBraceBlockSEO`, on the
spec's example text with the outer opening brace at offset 11, returns the
full outer block including the right brace inside the double-quoted string
literal, and the nested-key lookup for "a" inside that block returns the
inner block; the og_twitter.go extractor does not share this behaviour. -/
theorem extract_string_aware_example :
    ogText.toList.getD 11 (Char.ofNat 0) = braceL ∧
    extractBraceBlockSEO ogText 11 = "\x7b a: \x7b b: 1 \x7d, c: \"\x7d\" \x7d" ∧
    extractNestedBlockSEO (extractBraceBlockSEO ogText 11) "a" = "\x7b b: 1 \x7d" ∧
    extractNestedBlockSEO ogText "openGraph" = "\x7b a: \x7b b: 1 \x7d, c: \"\x7d\" \x7d" := by
  refine ⟨by decide, by decide, by decide, by decide⟩

/-- C1 counterexample: the brace-extraction helper `extractBraceBlock` of
og_twitter.go has no string-literal awareness, so on the very example the
claim quantifies over it stops at the right brace inside the string
literal and does not return the full outer block. -/
theorem extractBraceBlock_not_string_aware :
    extractBraceBlock ogText 11 = "\x7b a: \x7b b: 1 \x7d, c: \"\x7d" ∧
    extractBraceBlock ogText 11 ≠ extractBraceBlockSEO ogText 11 := by
  refine ⟨by decide, by decide⟩

/-- C2: for a local address bearing no protocol prefix, `tryURL` attempts
`https://`+address first and `http://`+address second (witnessed by the
attempt log), returns the first successful response together with the URL
actually used, and when both attempts fail returns the HTTP attempt's
error. -/
theorem tryURL_local_noproto {ρ ε : Type} (client : HttpClient ρ ε) (url : String)
    (hl : isLocalURL url = true)
    (h1 : goHasPref url "http://" = false) (h2 : goHasPref url "https://" = false) :
    (∀ r, client.get ("https://" ++ url) = .ok r →
        tryURL client url = ⟨.ok r, "https://" ++ url, ["https://" ++ url]⟩) ∧
    (∀ e r, client.get ("https://" ++ url) = .error e →
        client.get ("http://" ++ url) = .ok r →
        tryURL client url = ⟨.ok r, "http://" ++ url, ["https://" ++ url, "http://" ++ url]⟩) ∧
    (∀ e e2, client.get ("https://" ++ url) = .error e →
        client.get ("http://" ++ url) = .error e2 →
        tryURL client url = ⟨.error e2, url, ["https://" ++ url, "http://" ++ url]⟩) := by
  refine ⟨fun r hr => ?_, fun e r he hr => ?_, fun e e2 he he2 => ?_⟩ <;>
  · unfold tryURL
    simp only [hl, h1, h2, Bool.not_false, Bool.and_true, Bool.true_and, if_true]
    simp [*]

/-- C2 witness: against a transport where only plain-HTTP localhost
answers, the probe of "localhost:3000" tries HTTPS, falls back to HTTP,
and reports the `http://` URL as the one used. -/
theorem tryURL_local_noproto_witness :
    tryURL cliHttpOnly "localhost:3000" =
      ⟨.ok 200, "http://localhost:3000",
        ["https://localhost:3000", "http://localhost:3000"]⟩ :=
  (tryURL_local_noproto cliHttpOnly "localhost:3000"
    (by decide) (by decide) (by decide)).2.1 "refused" 200 rfl rfl

/-- C3 (amended): for a non-local address without a protocol prefix,
`tryURL` performs exactly one request attempt — to the address exactly as
given, with no `https://` prefix added — and returns that attempt's
outcome with the given address. -/
theorem tryURL_nonlocal_noproto {ρ ε : Type} (client : HttpClient ρ ε) (url : String)
    (hl : isLocalURL url = false)
    ( _h1 : goHasPref url "http://" = false) ( _h2 : goHasPref url "https://" = false) :
    tryURL client url = ⟨client.get url, url, [url]⟩ :=
  tryURL_nonlocal client url hl

/-- C3 witness: probing the non-local, scheme-less address "example.com"
issues the single attempt ["example.com"]. -/
theorem tryURL_nonlocal_noproto_witness :
    tryURL cliBare "example.com" = ⟨.ok 200, "example.com", ["example.com"]⟩ :=
  tryURL_nonlocal_noproto cliBare "example.com" (by decide) (by decide) (by decide)

/-- C3 counterexample: for the non-local, scheme-less address
"example.com", the single request goes to the bare address — a transport
that succeeds only on "example.com" and fails on "https://example.com"
still sees the probe succeed, which is impossible if the issued request
carried the `https://` prefix. -/
theorem tryURL_assumes_https_refuted :
    (tryURL cliBare "example.com").attempts = ["example.com"] ∧
    (tryURL cliBare "example.com").result = .ok 200 ∧
    cliBare.get "https://example.com" = .error "no scheme" ∧
    ("example.com" : String) ≠ "https://example.com" :=
  ⟨rfl, rfl, rfl, by decide⟩

/-- C4 (amended): stripping twice equals stripping once on representative
inputs of every supported comment dialect (C line, C block, markup,
double-brace-hash, percent-hash, leading-hash, and all mixed), though not
for every input, since a removal can splice the surrounding characters
into a new comment opener. -/
theorem stripComments_idempotent_on_dialects :
    stripComments (stripComments "a // b\nc") = stripComments "a // b\nc" ∧
    stripComments (stripComments "a /* b */ c") = stripComments "a /* b */ c" ∧
    stripComments (stripComments "a <!-- b --> c") = stripComments "a <!-- b --> c" ∧
    stripComments (stripComments "a \x7b# b #\x7d c") = stripComments "a \x7b# b #\x7d c" ∧
    stripComments (stripComments "a <%# b %> c") = stripComments "a <%# b %> c" ∧
    stripComments (stripComments "  # b\nc") = stripComments "  # b\nc" ∧
    stripComments (stripComments "x // c\n/* b */\n<!-- h -->\n\x7b# t #\x7d\n<%# e %>\n  # s\ny")
      = stripComments "x // c\n/* b */\n<!-- h -->\n\x7b# t #\x7d\n<%# e %>\n  # s\ny" := by
  refine ⟨by decide, by decide, by decide, by decide, by decide, by decide, by decide⟩

/-- C4 counterexample: comment stripping is not idempotent.  Removing the
markup comment from "/<!-- -->/x" joins the two slashes into a line
comment "//x", which only a second pass removes: one pass yields "//x",
two passes yield "". -/
theorem stripComments_not_idempotent :
    stripComments "/<!-- -->/x" = "//x" ∧
    stripComments (stripComments "/<!-- -->/x") = "" ∧
    stripComments (stripComments "/<!-- -->/x") ≠ stripComments "/<!-- -->/x" := by
  refine ⟨by decide, by decide, by decide⟩

/-- C5 (amended): `stripComments` removes line comment forms before block
comment forms (the first and second passes respectively).  A `/*` inside a
line comment is removed together with the line comment, so it cannot open
a block; conversely a `//` inside a block comment swallows the rest of its
line, including the closing `*/`, truncating the block match. -/
theorem stripComments_line_first :
    (∀ s : String, stripComments s =
      String.mk (stripHashC (stripErbC (stripTwigC (stripHtmlC (stripBlockC (stripLineC s.toList))))))) ∧
    stripComments "// x /* y\nz" = "\nz" ∧
    stripComments "/* a // b */ c" = "/* a " := by
  refine ⟨fun s => rfl, by decide, by decide⟩

/-- C5 counterexample: on "/* a // b */ c" the code (line comments first)
yields "/* a ", while removing block forms before line forms, as the claim
states, would yield " c"; the two orders disagree, refuting the claim that
block forms are removed first. -/
theorem stripComments_order_refuted :
    stripComments "/* a // b */ c" = "/* a " ∧
    stripCommentsBlockFirst "/* a // b */ c" = " c" ∧
    stripComments "/* a // b */ c" ≠ stripCommentsBlockFirst "/* a // b */ c" := by
  refine ⟨by decide, by decide, by decide⟩

/-- C6: `CalculateSummary` checks `passed` before severity: the `ok`
bucket counts exactly the results that passed — regardless of their stored
severity — plus the failed results whose severity is neither "error" nor
"warn"; and on the spec's example list (one passed result, here even
carrying severity "error", one failed "warn", one failed "error") the
summary is ok 1, warn 1, fail 1. -/
theorem CalculateSummary_passed_first :
    (∀ results : List CheckResult,
        CalculateSummary results =
          ⟨results.countP isOkR, results.countP isWarnR, results.countP isFailR⟩) ∧
    CalculateSummary
      [⟨"a", "t", "error", true, "m", [], []⟩,
       ⟨"b", "t", "warn", false, "m", [], []⟩,
       ⟨"c", "t", "error", false, "m", [], []⟩] = ⟨1, 1, 1⟩ := by
  constructor
  · intro results
    unfold CalculateSummary
    rw [calcSummary_foldl]
    simp
  · decide

/-- C7: for a local address that already carries a protocol prefix,
`tryURL` attempts the given URL first; on failure it attempts the
alternate-protocol URL (`http://` and `https://` swapped); it returns
whichever attempt succeeds together with the URL used, and when both fail
it returns the second (alternate-protocol) attempt's error. -/
theorem tryURL_local_with_proto {ρ ε : Type} (client : HttpClient ρ ε) (url : String)
    (hl : isLocalURL url = true)
    (hp : goHasPref url "http://" = true ∨ goHasPref url "https://" = true) :
    (∀ r, client.get url = .ok r → tryURL client url = ⟨.ok r, url, [url]⟩) ∧
    (∀ e r, client.get url = .error e → client.get (altURLOf url) = .ok r →
        tryURL client url = ⟨.ok r, altURLOf url, [url, altURLOf url]⟩) ∧
    (∀ e e2, client.get url = .error e → client.get (altURLOf url) = .error e2 →
        tryURL client url = ⟨.error e2, url, [url, altURLOf url]⟩) ∧
    (goHasPref url "http://" = true → altURLOf url = "https://" ++ goTrimPref url "http://") ∧
    (goHasPref url "https://" = true → altURLOf url = "http://" ++ goTrimPref url "https://") := by
  have hc1 : (isLocalURL url && !goHasPref url "http://" && !goHasPref url "https://") = false := by
    rcases hp with h | h <;> simp [h]
  have hene : ¬altURLOf url = "" := by
    rcases hp with h | h
    · rw [altURLOf, if_pos h]
      exact str_append_ne_empty _ _ (by decide)
    · rw [altURLOf, if_neg (by simp [https_not_http url h]), if_pos h]
      exact str_append_ne_empty _ _ (by decide)
  refine ⟨fun r hr => ?_, fun e r he hr => ?_, fun e e2 he he2 => ?_,
    fun h => by rw [altURLOf, if_pos h],
    fun h => by rw [altURLOf, if_neg (by simp [https_not_http url h]), if_pos h]⟩
  · unfold tryURL
    rw [if_neg (by simp [hc1]), if_pos hl, hr]
  · unfold tryURL
    rw [if_neg (by simp [hc1]), if_pos hl, he]
    simp only []
    rw [if_pos hene, hr]
  · unfold tryURL
    rw [if_neg (by simp [hc1]), if_pos hl, he]
    simp only []
    rw [if_pos hene, he2]

/-- C7 witness: against a transport where only HTTPS localhost answers,
probing "http://localhost:3000" fails, swaps the protocol, succeeds on
"https://localhost:3000", and reports that alternate URL as used. -/
theorem tryURL_local_with_proto_witness :
    tryURL cliHttpsOnly "http://localhost:3000" =
      ⟨.ok 200, "https://localhost:3000",
        ["http://localhost:3000", "https://localhost:3000"]⟩ :=
  (tryURL_local_with_proto cliHttpsOnly "http://localhost:3000"
    (by decide) (Or.inl (by decide))).2.1 "refused" 200 rfl rfl

/-- C8 (amended): the leading-hash pass removes a hash comment only when
the `#` opens its line (after optional whitespace) — whenever no line of
the input starts with `#`, that pass is the identity; "color: #ffffff;" is
preserved verbatim by the whole of `stripComments`, while a line-leading
`#` comment is removed; but a `#` that is not line-leading can still
disappear when it lies inside another dialect's comment span, such as a
double-brace-hash comment. -/
theorem stripComments_hash_line_only :
    (∀ s : String, lineStartsWithHash s = false → stripHashC s.toList = s.toList) ∧
    stripComments "color: #ffffff;" = "color: #ffffff;" ∧
    stripComments "  #cmt\nx" = "\nx" ∧
    stripComments "a \x7b#b#\x7d c" = "a  c" := by
  refine ⟨fun s h => stripHash_no_lead_id s h, by decide, by decide, by decide⟩

/-- C8 witness: the hex-colour line has no hash-leading line, and the
hash-comment pass leaves it untouched. -/
theorem stripComments_hash_line_only_witness :
    stripHashC ("color: #ffffff;").toList = ("color: #ffffff;").toList :=
  stripComments_hash_line_only.1 "color: #ffffff;" (by decide)

/-- C8 counterexample: the input "a \x7b#b#\x7d c" has no line whose first
non-whitespace character is `#`, yet stripping removes both of its `#`
characters (they delimit a double-brace-hash comment), refuting the claim
that such a `#` is never removed. -/
theorem stripComments_hash_removal_refuted :
    lineStartsWithHash "a \x7b#b#\x7d c" = false ∧
    "a \x7b#b#\x7d c".toList.count '#' = 2 ∧
    (stripComments "a \x7b#b#\x7d c").toList.count '#' = 0 := by
  refine ⟨by decide, by decide, by decide⟩

/-- C9: for a non-local address that carries an explicit protocol prefix,
`tryURL` issues exactly one request attempt — to the given URL, with no
protocol fallback — and returns that attempt's response or error together
with the given URL. -/
theorem tryURL_nonlocal_with_proto {ρ ε : Type} (client : HttpClient ρ ε) (url : String)
    (hl : isLocalURL url = false)
    ( _hp : goHasPref url "http://" = true ∨ goHasPref url "https://" = true) :
    tryURL client url = ⟨client.get url, url, [url]⟩ :=
  tryURL_nonlocal client url hl

/-- C9 witness: probing "https://example.com" against a dead transport
issues the single attempt ["https://example.com"] and surfaces that
attempt's error with the given URL. -/
theorem tryURL_nonlocal_with_proto_witness :
    tryURL cliDown "https://example.com" =
      ⟨.error "down", "https://example.com", ["https://example.com"]⟩ :=
  tryURL_nonlocal_with_proto cliDown "https://example.com" (by decide) (Or.inr (by decide))

/-- C10: `CalculateSummary` places every result in exactly one bucket, so
ok + warn + fail equals the number of results; a failed result whose
severity is neither "warn" nor "error" — "info" or an unrecognized string
— is counted in the `ok` bucket. -/
theorem CalculateSummary_buckets_partition :
    (∀ results : List CheckResult,
        (CalculateSummary results).ok + (CalculateSummary results).warn +
          (CalculateSummary results).fail = results.length) ∧
    CalculateSummary [⟨"a", "t", "info", false, "m", [], []⟩] = ⟨1, 0, 0⟩ ∧
    CalculateSummary [⟨"a", "t", "bogus", false, "m", [], []⟩] = ⟨1, 0, 0⟩ := by
  refine ⟨fun results => ?_, by decide, by decide⟩
  unfold CalculateSummary
  rw [calcSummary_foldl]
  simpa using countP_buckets results

end Preflight
